import Mathlib

/-!
Verification of the caption-windowing and question-citation pipeline of the
`annoto-gai` repository, as a shallow embedding in Lean.

Timestamps are modelled as natural numbers counting microseconds (the
granularity of Python `datetime` values produced by `strptime`).  Durations
(`pandas.Timedelta`) are likewise microsecond counts.  DataFrames of caption
rows are modelled as lists of records, kept in the frame's row order.
-/

namespace Annoto

/-- Microseconds per second: the scale between `windowSize` (given in seconds)
and modelled timestamps. -/
def usPerSec : Nat := 1000000

/-- One row of the caption transcript DataFrame built by `processSrtFiles`:
columns `Line`, `Start`, `End`. -/
structure CaptionRec where
  Line : String
  Start : Nat
  End : Nat
deriving DecidableEq, Repr

instance : Inhabited CaptionRec := ⟨⟨"", 0, 0⟩⟩

/-- One row of the combined transcript DataFrame built by
`getCombinedTranscripts`: columns `Combined Lines`, `Start`, `End`. -/
structure WindowRec where
  CombinedLines : String
  Start : Nat
  End : Nat
deriving DecidableEq, Repr

instance : Inhabited WindowRec := ⟨⟨"", 0, 0⟩⟩

/-- Python `" ".join(xs)`. -/
def spaceJoin : List String → String
  | [] => ""
  | [s] => s
  | s :: s' :: rest => s ++ " " ++ spaceJoin (s' :: rest)

/-- The DataFrame filter
`transcript[(transcript["Start"] - currStart < duration) & (transcript["Start"] >= currStart)]`
of `getCombinedTranscripts`.  Subtraction of timestamps is truncated at zero,
which agrees with the Python comparison because a negative difference is below
the (positive) duration exactly when the second conjunct already fails. -/
def sliceOf (ts : List CaptionRec) (currStart duration : Nat) : List CaptionRec :=
  ts.filter fun r => decide (r.Start - currStart < duration) && decide (currStart ≤ r.Start)

/-- The widening step `duration = pd.Timedelta(seconds=duration.seconds + 1)`.
`Timedelta.seconds` is the sub-day seconds component (`total seconds mod 86400`,
with sub-second microseconds discarded), so the new duration is that component
plus one, in seconds. -/
def widenDuration (duration : Nat) : Nat :=
  (duration / usPerSec % 86400 + 1) * usPerSec

/-- The window row emitted for a non-empty slice: combined `Line`s space-joined
in order, `Start` of the first row (`iloc[0]`) and `End` of the last row
(`iloc[-1]`). -/
def mkWindow (slice : List CaptionRec) : WindowRec :=
  ⟨spaceJoin (slice.map (·.Line)), (slice.headD default).Start, (slice.getLastD default).End⟩

/-- Stable insertion of a record into a list sorted by `Start`. -/
def insertRec (r : CaptionRec) : List CaptionRec → List CaptionRec
  | [] => [r]
  | x :: xs => if r.Start ≤ x.Start then r :: x :: xs else x :: insertRec r xs

/-- The `transcript.sort_values(by="Start")` step, modelled as a stable
insertion sort on the `Start` column. -/
def sortByStart : List CaptionRec → List CaptionRec
  | [] => []
  | x :: xs => insertRec x (sortByStart xs)

/-- The `while currStart < transcript.iloc[-1]["Start"]` loop of
`getCombinedTranscripts`, with an explicit fuel bound since the source loop
does not terminate on all inputs.  `none` means the fuel ran out (the loop was
still running).  The loop is only ever entered with a non-empty frame (the
caller has already indexed `iloc[0]`), so reading the last row with a default
is faithful. -/
def segLoop (ts : List CaptionRec) (windowSize : Nat) :
    Nat → Nat → Nat → List WindowRec → Option (List WindowRec)
  | 0, _, _, _ => none
  | Nat.succ fuel, currStart, duration, acc =>
    if currStart < (ts.getLastD default).Start then
      if sliceOf ts currStart duration = [] then
        segLoop ts windowSize fuel currStart (widenDuration duration) acc
      else
        segLoop ts windowSize fuel ((sliceOf ts currStart duration).getLastD default).End
          (windowSize * usPerSec) (acc ++ [mkWindow (sliceOf ts currStart duration)])
    else some acc

/-- `getCombinedTranscripts(transcript, windowSize)` of `transcriptLoader.py`:
sort by `Start`, then run the windowing loop starting at the first row's
`Start` with `duration = Timedelta(seconds=windowSize)`.  The source indexes
`iloc[0]` of the frame, so the empty transcript (which would raise) is `none`;
`none` is also returned when the fuel is exhausted. -/
def getCombinedTranscripts (transcript : List CaptionRec) (windowSize : Nat) (fuel : Nat) :
    Option (List WindowRec) :=
  match sortByStart transcript with
  | [] => none
  | r0 :: rest => segLoop (r0 :: rest) windowSize fuel r0.Start (windowSize * usPerSec) []

end Annoto

namespace Annoto

/-! ### Helper lemmas about `spaceJoin`, sorting, and ordered filtering -/

theorem spaceJoin_append :
    ∀ (a b : List String), a ≠ [] → b ≠ [] →
      spaceJoin (a ++ b) = spaceJoin a ++ " " ++ spaceJoin b
  | [], _, ha, _ => absurd rfl ha
  | [x], b, _, hb => by
    cases b with
    | nil => exact absurd rfl hb
    | cons y ys => simp [spaceJoin]
  | x :: x' :: xs, b, _, hb => by
    have ih : spaceJoin (x' :: (xs ++ b)) = spaceJoin (x' :: xs) ++ " " ++ spaceJoin b := by
      simpa using spaceJoin_append (x' :: xs) b (by simp) hb
    show x ++ " " ++ spaceJoin (x' :: (xs ++ b))
        = x ++ " " ++ spaceJoin (x' :: xs) ++ " " ++ spaceJoin b
    rw [ih]
    simp [String.append_assoc]

theorem spaceJoin_flatten :
    ∀ (xss : List (List String)), (∀ xs ∈ xss, xs ≠ []) →
      spaceJoin (xss.map spaceJoin) = spaceJoin xss.flatten
  | [], _ => rfl
  | xs :: xss, h => by
    have hxs : xs ≠ [] := h xs (by simp)
    have ih := spaceJoin_flatten xss (fun a ha => h a (by simp [ha]))
    cases hx : xss with
    | nil => subst hx; simp [spaceJoin]
    | cons ys yss =>
      have hfl : xss.flatten ≠ [] := by
        have hys : ys ≠ [] := h ys (by simp [hx])
        subst hx
        simp only [List.flatten_cons, ne_eq, List.append_eq_nil]
        intro hcon
        exact hys hcon.1
      rw [← hx] at *
      have hmapne : xss.map spaceJoin ≠ [] := by
        simp only [ne_eq, List.map_eq_nil_iff]
        intro hcon
        rw [hcon] at hfl
        exact hfl rfl
      have lhs : spaceJoin ((xs :: xss).map spaceJoin)
          = spaceJoin xs ++ " " ++ spaceJoin (xss.map spaceJoin) := by
        rw [List.map_cons]
        have := spaceJoin_append [spaceJoin xs] (xss.map spaceJoin) (by simp) hmapne
        simpa [spaceJoin] using this
      rw [lhs, ih, List.flatten_cons, spaceJoin_append xs xss.flatten hxs hfl]

theorem sortByStart_eq_self :
    ∀ (l : List CaptionRec), List.Pairwise (fun a b => a.Start ≤ b.Start) l →
      sortByStart l = l
  | [], _ => rfl
  | x :: xs, hpw => by
    rcases List.pairwise_cons.mp hpw with ⟨hx, hxs⟩
    have ih := sortByStart_eq_self xs hxs
    show insertRec x (sortByStart xs) = x :: xs
    rw [ih]
    cases xs with
    | nil => rfl
    | cons y ys =>
      show insertRec x (y :: ys) = x :: y :: ys
      rw [insertRec, if_pos (hx y (by simp))]

theorem filter_eq_takeWhile {α : Type} (p : α → Bool) :
    ∀ l : List α, List.Pairwise (fun a b => p b = true → p a = true) l →
      l.filter p = l.takeWhile p
  | [], _ => rfl
  | x :: xs, hpw => by
    rcases List.pairwise_cons.mp hpw with ⟨hx, hxs⟩
    by_cases hpx : p x = true
    · rw [List.filter_cons, List.takeWhile_cons, if_pos hpx, if_pos hpx,
        filter_eq_takeWhile p xs hxs]
    · rw [List.filter_cons, List.takeWhile_cons, if_neg hpx, if_neg hpx]
      exact List.filter_eq_nil_iff.mpr fun a ha hpa => hpx (hx a ha hpa)

theorem dropWhile_all_false {α : Type} (p : α → Bool) :
    ∀ l : List α, List.Pairwise (fun a b => p b = true → p a = true) l →
      ∀ r ∈ l.dropWhile p, p r = false
  | [], _, r, hr => by simp [List.dropWhile] at hr
  | x :: xs, hpw, r, hr => by
    rcases List.pairwise_cons.mp hpw with ⟨hx, hxs⟩
    by_cases hpx : p x = true
    · rw [List.dropWhile_cons_of_pos hpx] at hr
      exact dropWhile_all_false p xs hxs r hr
    · rw [List.dropWhile_cons_of_neg hpx] at hr
      rcases List.mem_cons.mp hr with rfl | hr2
      · exact Bool.eq_false_iff.mpr hpx
      · by_cases hpr : p r = true
        · exact absurd (hx r hr2 hpr) hpx
        · exact Bool.eq_false_iff.mpr hpr

theorem chain_pairwise_end_lt_start :
    ∀ (l : List CaptionRec), (∀ r ∈ l, r.Start < r.End) →
      List.Chain' (fun a b => a.End < b.Start) l →
      List.Pairwise (fun a b => a.End < b.Start) l
  | [], _, _ => List.Pairwise.nil
  | [x], _, _ => by simp
  | x :: y :: ys, hse, hch => by
    rw [List.chain'_cons] at hch
    have ih := chain_pairwise_end_lt_start (y :: ys)
      (fun r hr => hse r (List.mem_cons_of_mem _ hr)) hch.2
    refine List.Pairwise.cons ?_ ih
    intro b hb
    rcases List.mem_cons.mp hb with rfl | hb2
    · exact hch.1
    · have h1 : y.End < b.Start := (List.pairwise_cons.mp ih).1 b hb2
      have h2 : y.Start < y.End := hse y (by simp)
      omega

theorem pairwise_start_lt (l : List CaptionRec) (hse : ∀ r ∈ l, r.Start < r.End)
    (hch : List.Chain' (fun a b => a.End < b.Start) l) :
    List.Pairwise (fun a b => a.Start < b.Start) l := by
  refine (chain_pairwise_end_lt_start l hse hch).imp_of_mem ?_
  intro a b ha _ hab
  have := hse a ha
  omega

theorem start_le_start_getLast :
    ∀ (l : List CaptionRec) (hne : l ≠ []),
      List.Pairwise (fun a b => a.Start < b.Start) l →
      ∀ r ∈ l, r.Start ≤ (l.getLast hne).Start
  | [x], _, _, r, hr => by
    simp only [List.mem_singleton] at hr
    subst hr
    simp [List.getLast]
  | x :: y :: ys, _, hpw, r, hr => by
    rcases List.pairwise_cons.mp hpw with ⟨hx, hxs⟩
    have hlast : (x :: y :: ys).getLast (by simp) = (y :: ys).getLast (by simp) :=
      List.getLast_cons (by simp)
    rcases List.mem_cons.mp hr with rfl | hr2
    · have := hx _ (List.getLast_mem (l := y :: ys) (by simp))
      rw [hlast]
      omega
    · rw [hlast]
      exact start_le_start_getLast (y :: ys) (by simp) hxs r hr2

end Annoto

namespace Annoto

/-! ### The windowing loop on well-formed transcripts

On a transcript whose cues are strictly well-formed (each cue starts strictly
before it ends, consecutive cues do not overlap, and consecutive gaps stay
under one day, so the `Timedelta.seconds` wrap-around is never hit), the loop
terminates and partitions the cue list into contiguous non-empty runs, one
window per run. -/

theorem segLoop_run (ts : List CaptionRec) (w : Nat)
    (hw : 0 < w) (hw2 : w < 86400) (hne : ts ≠ [])
    (hSE : ∀ r ∈ ts, r.Start < r.End)
    (hCh : List.Chain' (fun a b => a.End < b.Start) ts)
    (hGap : List.Chain' (fun a b => b.Start - a.End < 86400 * usPerSec) ts) :
    ∀ fuel done rest currStart duration,
      ts = done.flatten ++ rest →
      (∀ ch ∈ done, ch ≠ []) →
      (∀ r ∈ done.flatten, r.Start < currStart) →
      (done = [] ∧ currStart = (ts.headD default).Start ∨
        ∃ p₀, done.flatten.getLast? = some p₀ ∧ currStart = p₀.End) →
      (rest ≠ [] → currStart ≤ (rest.headD default).Start ∧
        currStart < (ts.getLast hne).Start) →
      usPerSec ∣ duration → usPerSec ≤ duration → duration ≤ 86400 * usPerSec →
      rest.length * 86401 + (86400 - duration / usPerSec) < fuel →
      ∃ done₂, segLoop ts w fuel currStart duration (done.map mkWindow)
          = some ((done ++ done₂).map mkWindow) ∧
        done₂.flatten = rest ∧ ∀ ch ∈ done₂, ch ≠ [] := by
  have husp : usPerSec = 1000000 := rfl
  have hPW : List.Pairwise (fun a b => a.Start < b.Start) ts := pairwise_start_lt ts hSE hCh
  have hLD : ts.getLastD default = ts.getLast hne := by
    rw [List.getLastD_eq_getLast?, List.getLast?_eq_getLast ts hne, Option.getD_some]
  intro fuel
  induction fuel with
  | zero =>
    intro done rest c d _ _ _ _ _ _ _ _ hM
    omega
  | succ fuel ih =>
    intro done rest c d h1 h2 h3 h4 h5 hdvd hSle hle hM
    by_cases hguard : c < (ts.getLastD default).Start
    · -- the loop body runs
      have hrest : rest ≠ [] := by
        intro hr
        subst hr
        rw [List.append_nil] at h1
        have hmem : ts.getLast hne ∈ done.flatten := by
          rw [← h1]; exact List.getLast_mem hne
        have := h3 _ hmem
        rw [hLD] at hguard
        omega
      obtain ⟨q, rest', hq⟩ : ∃ q rest', rest = q :: rest' := by
        cases rest with
        | nil => exact absurd rfl hrest
        | cons a as => exact ⟨a, as, rfl⟩
      have hchead : rest.headD default = q := by rw [hq]; rfl
      have hPWrest : List.Pairwise (fun a b => a.Start < b.Start) rest := by
        rw [h1] at hPW
        exact (List.pairwise_append.mp hPW).2.1
      have hcle : ∀ r ∈ rest, c ≤ r.Start := by
        intro r hr
        have hcq : c ≤ q.Start := hchead ▸ (h5 hrest).1
        rw [hq] at hr
        rcases List.mem_cons.mp hr with rfl | hr2
        · exact hcq
        · have : q.Start < r.Start := (List.pairwise_cons.mp (hq ▸ hPWrest)).1 r hr2
          omega
      have hfilters : sliceOf ts c d
          = rest.filter (fun r => decide (r.Start - c < d) && decide (c ≤ r.Start)) := by
        rw [sliceOf, h1, List.filter_append]
        have hdone : (done.flatten.filter
            (fun r => decide (r.Start - c < d) && decide (c ≤ r.Start))) = [] := by
          refine List.filter_eq_nil_iff.mpr ?_
          intro r hr
          have := h3 r hr
          simp only [Bool.and_eq_true, decide_eq_true_eq, not_and]
          omega
        rw [hdone, List.nil_append]
      have hanti : List.Pairwise
          (fun a b => ((decide (b.Start - c < d) && decide (c ≤ b.Start)) = true) →
            ((decide (a.Start - c < d) && decide (c ≤ a.Start)) = true)) rest := by
        refine hPWrest.imp_of_mem ?_
        intro a b ha hb hlt hpb
        have hca := hcle a ha
        simp only [Bool.and_eq_true, decide_eq_true_eq] at hpb ⊢
        exact ⟨by omega, hca⟩
      by_cases hsl : sliceOf ts c d = []
      · -- empty slice: widen the duration and retry
        have hpq : ¬ ((decide (q.Start - c < d) && decide (c ≤ q.Start)) = true) := by
          rw [hfilters] at hsl
          exact List.filter_eq_nil_iff.mp hsl q (by simp [hq])
        have hcq : c ≤ q.Start := hchead ▸ (h5 hrest).1
        have hdq : d ≤ q.Start - c := by
          simp only [Bool.and_eq_true, decide_eq_true_eq, not_and] at hpq
          omega
        have hdlt : d < 86400 * usPerSec := by
          rcases h4 with ⟨hdone0, hc0⟩ | ⟨p₀, hp₀, hcp₀⟩
          · -- initial state: the head record is always inside the slice
            rw [hdone0] at h1
            rw [List.flatten_nil, List.nil_append] at h1
            have hqhead : ts.headD default = q := by rw [h1, hq]; rfl
            rw [hqhead] at hc0
            omega
          · have hgapq : q.Start - p₀.End < 86400 * usPerSec := by
              rw [h1] at hGap
              have := (List.chain'_append.mp hGap).2.2
              exact this p₀ hp₀ q (by rw [hq]; rfl)
            omega
        have hwiden : widenDuration d = d + usPerSec := by
          rw [widenDuration, husp]
          rw [husp] at hdvd hdlt
          omega
        have hstep : segLoop ts w (fuel + 1) c d (done.map mkWindow)
            = segLoop ts w fuel c (widenDuration d) (done.map mkWindow) := by
          rw [segLoop, if_pos hguard, if_pos hsl]
        obtain ⟨done₂, hrun, hflat, hne₂⟩ := ih done rest c (d + usPerSec) h1 h2 h3 h4 h5
          (by rw [husp] at hdvd ⊢; omega)
          (by omega)
          (by rw [husp] at hdvd hdlt ⊢; omega)
          (by rw [husp] at hdvd ⊢; rw [husp] at hM; omega)
        exact ⟨done₂, by rw [hstep, hwiden]; exact hrun, hflat, hne₂⟩
      · -- non-empty slice: emit a window and advance the cursor
        set p : CaptionRec → Bool := fun r => decide (r.Start - c < d) && decide (c ≤ r.Start)
          with hp
        have htw : sliceOf ts c d = rest.takeWhile p := by
          rw [hfilters]
          exact filter_eq_takeWhile p rest hanti
        set ch : List CaptionRec := rest.takeWhile p with hch
        set rest₂ : List CaptionRec := rest.dropWhile p with hrest₂
        have hsplit : rest = ch ++ rest₂ := (List.takeWhile_append_dropWhile p rest).symm
        have hchne : ch ≠ [] := by rw [← htw]; exact hsl
        have hchsub : ch.Sublist rest := List.takeWhile_sublist p
        have hchmem : ∀ r ∈ ch, r ∈ rest := fun r hr => hchsub.mem hr
        have htsmem : ∀ r ∈ rest, r ∈ ts := by
          intro r hr
          rw [h1]
          exact List.mem_append_right _ hr
        have hPWch : List.Pairwise (fun a b => a.Start < b.Start) ch :=
          hPWrest.sublist hchsub
        set chLast : CaptionRec := ch.getLast hchne with hchLast
        have hchLD : ch.getLastD default = chLast := by
          rw [List.getLastD_eq_getLast?, List.getLast?_eq_getLast ch hchne, Option.getD_some]
        have hchlastmem : chLast ∈ ch := List.getLast_mem hchne
        have hc'c : c < chLast.End := by
          have h1' : c ≤ chLast.Start := hcle chLast (hchmem chLast hchlastmem)
          have h2' : chLast.Start < chLast.End :=
            hSE chLast (htsmem chLast (hchmem chLast hchlastmem))
          omega
        have hchstart : ∀ r ∈ ch, r.Start ≤ chLast.Start :=
          start_le_start_getLast ch hchne hPWch
        -- the state after the emission
        have h1new : ts = (done ++ [ch]).flatten ++ rest₂ := by
          rw [List.flatten_append, List.flatten_cons, List.flatten_nil, List.append_nil,
            List.append_assoc, ← hsplit]
          exact h1
        have h2new : ∀ c' ∈ done ++ [ch], c' ≠ [] := by
          intro c' hc'
          rcases List.mem_append.mp hc' with hc' | hc'
          · exact h2 c' hc'
          · rw [List.mem_singleton.mp hc']
            exact hchne
        have h3new : ∀ r ∈ (done ++ [ch]).flatten, r.Start < chLast.End := by
          intro r hr
          rw [List.flatten_append, List.flatten_cons, List.flatten_nil,
            List.append_nil] at hr
          rcases List.mem_append.mp hr with hr | hr
          · have := h3 r hr
            omega
          · have h1' := hchstart r hr
            have h2' : chLast.Start < chLast.End :=
              hSE chLast (htsmem chLast (hchmem chLast hchlastmem))
            omega
        have hlastflat : (done ++ [ch]).flatten.getLast? = some chLast := by
          rw [List.flatten_append, List.flatten_cons, List.flatten_nil, List.append_nil,
            List.getLast?_append, List.getLast?_eq_getLast ch hchne]
          rfl
        have h4new : (done ++ [ch] = [] ∧ chLast.End = (ts.headD default).Start ∨
            ∃ p₀, (done ++ [ch]).flatten.getLast? = some p₀ ∧ chLast.End = p₀.End) :=
          Or.inr ⟨chLast, hlastflat, rfl⟩
        have h5new : rest₂ ≠ [] → chLast.End ≤ (rest₂.headD default).Start ∧
            chLast.End < (ts.getLast hne).Start := by
          intro hr₂
          obtain ⟨q₂, rest₂', hq₂⟩ : ∃ q₂ rest₂', rest₂ = q₂ :: rest₂' := by
            cases hx : rest₂ with
            | nil => exact absurd hx hr₂
            | cons a as => exact ⟨a, as, rfl⟩
          have hadj : chLast.End < q₂.Start := by
            rw [h1new] at hCh
            have := (List.chain'_append.mp hCh).2.2
            refine this chLast hlastflat q₂ ?_
            rw [hq₂]; rfl
          have hq₂ts : q₂ ∈ ts := by
            rw [h1new, hq₂]
            exact List.mem_append_right _ (by simp)
          have hq₂le : q₂.Start ≤ (ts.getLast hne).Start :=
            start_le_start_getLast ts hne hPW q₂ hq₂ts
          constructor
          · rw [hq₂]
            simp only [List.headD_cons]
            omega
          · omega
        have hstep : segLoop ts w (fuel + 1) c d (done.map mkWindow)
            = segLoop ts w fuel ((sliceOf ts c d).getLastD default).End (w * usPerSec)
              (done.map mkWindow ++ [mkWindow (sliceOf ts c d)]) := by
          rw [segLoop, if_pos hguard, if_neg hsl]
        have hsliceLD : ((sliceOf ts c d).getLastD default).End = chLast.End := by
          rw [htw, hchLD]
        have hacc : done.map mkWindow ++ [mkWindow (sliceOf ts c d)]
            = (done ++ [ch]).map mkWindow := by
          rw [List.map_append, List.map_cons, List.map_nil, htw, hch]
        have hMnew : rest₂.length * 86401 + (86400 - w * usPerSec / usPerSec) < fuel := by
          have hlen : rest.length = ch.length + rest₂.length := by
            rw [hsplit, List.length_append]
          have hchlen : 1 ≤ ch.length := by
            cases hcx : ch with
            | nil => exact absurd hcx hchne
            | cons a as => simp
          have hdiv : w * usPerSec / usPerSec = w := Nat.mul_div_cancel w (by rw [husp]; omega)
          rw [hdiv]
          omega
        obtain ⟨done₂, hrun, hflat, hne₂⟩ := ih (done ++ [ch]) rest₂ chLast.End (w * usPerSec)
          h1new h2new h3new h4new h5new
          ⟨w, Nat.mul_comm w usPerSec⟩
          (Nat.le_mul_of_pos_left usPerSec hw)
          (Nat.mul_le_mul_right usPerSec (by omega))
          hMnew
        refine ⟨ch :: done₂, ?_, ?_, ?_⟩
        · rw [hstep, hsliceLD, hacc, hrun, List.append_assoc, List.singleton_append]
        · rw [List.flatten_cons, hflat, hsplit]
        · intro c' hc'
          rcases List.mem_cons.mp hc' with rfl | hc'
          · exact hchne
          · exact hne₂ c' hc'
    · -- the loop guard fails: the run is complete
      have hrest : rest = [] := by
        by_contra hr
        have := (h5 hr).2
        rw [hLD] at hguard
        omega
      refine ⟨[], ?_, by rw [hrest]; rfl, by intro ch hch; cases hch⟩
      rw [segLoop, if_neg hguard, List.append_nil]


/-- C1 (amended): on a transcript of at least two cues in strict chain form
(each cue starts strictly before it ends, consecutive cues do not overlap, and
consecutive gaps are under one day) and a window size strictly between 0 and
86400 seconds, `getCombinedTranscripts` terminates and partitions the cue list
into contiguous, non-overlapping, non-empty runs, one window per run in order,
and the space-join of the windows' combined texts equals the space-join of all
input cue texts in original order. -/
theorem C1_partition_amended (ts : List CaptionRec) (w : Nat)
    (hw : 0 < w) (hw2 : w < 86400)
    (hlen : 2 ≤ ts.length)
    (hSE : ∀ r ∈ ts, r.Start < r.End)
    (hCh : List.Chain' (fun a b => a.End < b.Start) ts)
    (hGap : List.Chain' (fun a b => b.Start - a.End < 86400 * usPerSec) ts) :
    ∃ (fuel : Nat) (ws : List WindowRec) (chunks : List (List CaptionRec)),
      getCombinedTranscripts ts w fuel = some ws ∧
      chunks.flatten = ts ∧ (∀ ch ∈ chunks, ch ≠ []) ∧
      ws = chunks.map mkWindow ∧
      spaceJoin (ws.map (·.CombinedLines)) = spaceJoin (ts.map (·.Line)) := by
  have husp : usPerSec = 1000000 := rfl
  have hne : ts ≠ [] := by
    intro h
    rw [h] at hlen
    simp at hlen
  obtain ⟨r0, restT, hts⟩ : ∃ r0 restT, ts = r0 :: restT := by
    cases hx : ts with
    | nil => exact absurd hx hne
    | cons a as => exact ⟨a, as, rfl⟩
  subst hts
  have hne' : r0 :: restT ≠ [] := by simp
  have hPW : List.Pairwise (fun a b => a.Start < b.Start) (r0 :: restT) :=
    pairwise_start_lt _ hSE hCh
  have hsorted : List.Pairwise (fun a b => a.Start ≤ b.Start) (r0 :: restT) :=
    hPW.imp fun h => Nat.le_of_lt h
  have hsort : sortByStart (r0 :: restT) = r0 :: restT := sortByStart_eq_self _ hsorted
  have hrestT : restT ≠ [] := by
    intro h
    rw [h] at hlen
    simp at hlen
  set fuel : Nat := (r0 :: restT).length * 86401 + 86401 with hfuel
  have hunf : getCombinedTranscripts (r0 :: restT) w fuel
      = segLoop (r0 :: restT) w fuel r0.Start (w * usPerSec) [] := by
    rw [getCombinedTranscripts, hsort]
  have hheadlt : r0.Start < ((r0 :: restT).getLast hne').Start := by
    have h1 : (r0 :: restT).getLast hne' = restT.getLast hrestT := List.getLast_cons hrestT
    have hlastmem : (r0 :: restT).getLast hne' ∈ restT := by
      rw [h1]
      exact List.getLast_mem hrestT
    exact (List.pairwise_cons.mp hPW).1 _ hlastmem
  obtain ⟨done₂, hrun, hflat, hne₂⟩ :=
    segLoop_run (r0 :: restT) w hw hw2 hne' hSE hCh hGap fuel [] (r0 :: restT) r0.Start
      (w * usPerSec)
      (by simp)
      (by intro ch hch; cases hch)
      (by intro r hr; simp at hr)
      (Or.inl ⟨rfl, rfl⟩)
      (fun _ => ⟨Nat.le_refl _, hheadlt⟩)
      ⟨w, Nat.mul_comm w usPerSec⟩
      (Nat.le_mul_of_pos_left usPerSec hw)
      (Nat.mul_le_mul_right usPerSec (by omega))
      (by
        rw [Nat.mul_div_cancel w (by rw [husp]; omega)]
        omega)
  refine ⟨fuel, done₂.map mkWindow, done₂, ?_, hflat, hne₂, rfl, ?_⟩
  · rw [hunf]
    simpa using hrun
  · have hnonempty : ∀ xs ∈ done₂.map (fun ch => ch.map (·.Line)), xs ≠ [] := by
      intro xs hxs
      rw [List.mem_map] at hxs
      obtain ⟨ch, hch, rfl⟩ := hxs
      simp only [ne_eq, List.map_eq_nil_iff]
      exact hne₂ ch hch
    have hx := spaceJoin_flatten (done₂.map (fun ch => ch.map (·.Line))) hnonempty
    have hlhs : (done₂.map mkWindow).map (·.CombinedLines)
        = (done₂.map (fun ch => ch.map (·.Line))).map spaceJoin := by
      rw [List.map_map, List.map_map]
      rfl
    have hrhs : (r0 :: restT).map (·.Line)
        = (done₂.map (fun ch => ch.map (·.Line))).flatten := by
      rw [← hflat, List.map_flatten]
    rw [hlhs, hrhs, hx]

/-- Input showing claim C1 false as stated: a sorted transcript with a
zero-length middle cue.  The second window's cursor lands exactly on that cue's
start, so the cue is selected into both the first and the second window. -/
def c1ExInput : List CaptionRec :=
  [⟨"a", 0, usPerSec⟩, ⟨"b", 20 * usPerSec, 20 * usPerSec⟩,
   ⟨"c", 45 * usPerSec, 50 * usPerSec⟩]

/-- C1 (counterexample): `c1ExInput` is non-empty, sorted by start time, and
`windowSizeSeconds = 30 > 0`, yet `getCombinedTranscripts` emits windows
`"a b"` and `"b c"`: cue `"b"` belongs to two windows and the space-join of
the windows' texts is `"a b b c"`, not the space-join `"a b c"` of the input
texts, refuting the partition property as stated. -/
theorem C1_counterexample :
    List.Pairwise (fun a b => a.Start ≤ b.Start) c1ExInput ∧
    getCombinedTranscripts c1ExInput 30 10
      = some [⟨"a b", 0, 20 * usPerSec⟩, ⟨"b c", 20 * usPerSec, 50 * usPerSec⟩] ∧
    spaceJoin ((getCombinedTranscripts c1ExInput 30 10).getD [] |>.map (·.CombinedLines))
      = "a b b c" ∧
    spaceJoin (c1ExInput.map (·.Line)) = "a b c" ∧
    ("a b b c" : String) ≠ "a b c" :=
  ⟨by decide, by decide, by decide, by decide, by decide⟩

/-- Witness for C1 (amended): the spec's own concrete scenario, cues
`"intro"` (0s–5s) and `"details"` (20s–25s) with a 30-second window. -/
theorem C1_partition_amended_witness :
    ∃ (fuel : Nat) (ws : List WindowRec) (chunks : List (List CaptionRec)),
      getCombinedTranscripts
          [⟨"intro", 0, 5 * usPerSec⟩, ⟨"details", 20 * usPerSec, 25 * usPerSec⟩] 30 fuel
        = some ws ∧
      chunks.flatten
        = [⟨"intro", 0, 5 * usPerSec⟩, ⟨"details", 20 * usPerSec, 25 * usPerSec⟩] ∧
      (∀ ch ∈ chunks, ch ≠ []) ∧
      ws = chunks.map mkWindow ∧
      spaceJoin (ws.map (·.CombinedLines))
        = spaceJoin ([⟨"intro", 0, 5 * usPerSec⟩,
            ⟨"details", 20 * usPerSec, 25 * usPerSec⟩].map (CaptionRec.Line)) :=
  C1_partition_amended
    [⟨"intro", 0, 5 * usPerSec⟩, ⟨"details", 20 * usPerSec, 25 * usPerSec⟩] 30
    (by decide) (by decide) (by decide) (by decide)
    (by rw [List.chain'_pair]; decide) (by rw [List.chain'_pair]; decide)

end Annoto

namespace Annoto

/-! ### C4: the widening step and the `Timedelta.seconds` wrap-around -/

/-- C4 failing input: two well-formed cues whose start times are 90000 seconds
(more than one day) apart. -/
def c4GapInput : List CaptionRec :=
  [⟨"a", 0, usPerSec⟩, ⟨"b", 90000 * usPerSec, 90001 * usPerSec⟩]

/-- After the first window of `c4GapInput` is emitted the cursor sits at 1s and
the widening loop runs forever: the duration can never exceed one day (86400s),
because `pd.Timedelta(seconds=duration.seconds + 1)` wraps the duration back to
1s once it reaches a full day, so the 89999s gap to the next cue is never
covered and the slice stays empty. -/
theorem c4_widen_loop : ∀ (fuel d : Nat) (acc : List WindowRec),
    d ≤ 86400 * usPerSec →
    segLoop c4GapInput 30 fuel usPerSec d acc = none := by
  intro fuel
  induction fuel with
  | zero => intro d acc _; rfl
  | succ fuel ih =>
    intro d acc hd
    have hguard : usPerSec < ((c4GapInput).getLastD default).Start := by decide
    have hslice : sliceOf c4GapInput usPerSec d = [] := by
      refine List.filter_eq_nil_iff.mpr ?_
      intro r hr
      simp only [c4GapInput, List.mem_cons, List.not_mem_nil, or_false] at hr
      rcases hr with rfl | rfl
      · simp [usPerSec]
      · intro hcon
        simp only [Bool.and_eq_true, decide_eq_true_eq] at hcon
        simp only [usPerSec] at hcon hd
        omega
    have hwb : widenDuration d ≤ 86400 * usPerSec := by
      rw [widenDuration]
      simp only [usPerSec]
      omega
    rw [segLoop, if_pos hguard, if_pos hslice]
    exact ih _ _ hwb

/-- C4 (code bug): on `c4GapInput` — a sorted, non-overlapping transcript whose
single gap exceeds one day — `getCombinedTranscripts` never terminates, for any
amount of fuel.  The spec's widen-by-one-second rule would cover the gap after
finitely many retries; the code's `duration.seconds` wraps at 24 hours instead,
so forward progress is never made. -/
theorem C4_loop_never_terminates :
    ∀ fuel : Nat, getCombinedTranscripts c4GapInput 30 fuel = none := by
  intro fuel
  cases fuel with
  | zero => rfl
  | succ fuel =>
    have h1 : getCombinedTranscripts c4GapInput 30 (fuel + 1)
        = segLoop c4GapInput 30 fuel usPerSec (30 * usPerSec)
          [⟨"a", 0, usPerSec⟩] := rfl
    rw [h1]
    exact c4_widen_loop fuel (30 * usPerSec) _ (by decide)

/-! ### C8: a transcript whose first and last start times coincide -/

/-- C8: if the (sorted) transcript's first and last records have the same
start time — in particular for any single-record transcript — the loop guard
`currStart < transcript.iloc[-1]["Start"]` is false at entry, so
`getCombinedTranscripts` returns an empty window list rather than one window
containing the caption(s). -/
theorem C8_equal_start_no_windows (ts : List CaptionRec) (w fuel : Nat)
    (hne : ts ≠ [])
    (hsorted : List.Pairwise (fun a b => a.Start ≤ b.Start) ts)
    (heq : (ts.headD default).Start = (ts.getLastD default).Start)
    (hfuel : 0 < fuel) :
    getCombinedTranscripts ts w fuel = some [] := by
  obtain ⟨r0, restT, rfl⟩ : ∃ r0 restT, ts = r0 :: restT := by
    cases hx : ts with
    | nil => exact absurd hx hne
    | cons a as => exact ⟨a, as, rfl⟩
  obtain ⟨fuel', rfl⟩ : ∃ f, fuel = f + 1 := ⟨fuel - 1, by omega⟩
  have hng : ¬ (r0.Start < (((r0 :: restT)).getLastD default).Start) := by
    rw [List.headD_cons] at heq
    omega
  rw [getCombinedTranscripts, sortByStart_eq_self _ hsorted]
  show segLoop (r0 :: restT) w (fuel' + 1) r0.Start (w * usPerSec) [] = some []
  rw [segLoop, if_neg hng]

/-- Witness for C8: a single-caption transcript produces zero windows. -/
theorem C8_equal_start_no_windows_witness :
    getCombinedTranscripts [⟨"x", 5 * usPerSec, 9 * usPerSec⟩] 30 1 = some [] :=
  C8_equal_start_no_windows [⟨"x", 5 * usPerSec, 9 * usPerSec⟩] 30 1
    (by decide) (by decide) (by decide) (by decide)

end Annoto

namespace Annoto

/-! ### The citation resolver of `LangChainQuestionGenerator.py`

`processResponseData(responseInfo, transcript)` walks the generated questions
in order and, for each, reads `transcript.iloc[question.citations[0]]` to copy
that window's `Start`/`End` into the output record.  The two failure modes are
modelled as error values: `question.citations[0]` on an empty citation list
raises (the spec's `MissingCitationError`), and `iloc` with an index outside
`[-len, len)` raises (the spec's `CitationOutOfRangeError`).  The source parses
the row's stored `"%H:%M:%S"` strings back into `datetime`s with `strptime`;
the embedding carries the row timestamps directly, identifying a stored
timestamp with its parsed value. -/

/-- A question as produced by the structured-output model (`Question` in
`LangChainQuestionGenerator.py`). -/
structure Question where
  question : String
  answers : List String
  correctAnswerIndex : Int
  reason : String
  topic : String
  insertionTime : String
  citations : List Int
deriving DecidableEq, Repr

/-- One entry of the dictionary built by `processResponseData`, with keys
`Start`, `End`, `Topic`, `Question`, `Answers`, `Correct Answer Index`,
`Reason`.  The model's own `insertionTime` guess is discarded. -/
structure ResolvedQuestion where
  Start : Nat
  End : Nat
  Topic : String
  Question : String
  Answers : List String
  CorrectAnswerIndex : Int
  Reason : String
deriving DecidableEq, Repr

/-- The two `IndexError` sites of `processResponseData`. -/
inductive ResolveError where
  | missingCitation
  | citationOutOfRange
deriving DecidableEq, Repr

/-- Pandas `rows.iloc[i]` for a single integer `i`: Python indexing, where a
negative `i` counts from the end and anything outside `[-len(rows), len(rows))`
raises `IndexError` (modelled as `none`). -/
def iloc {α : Type} (rows : List α) (i : Int) : Option α :=
  if 0 ≤ i then rows.get? i.toNat
  else if -(rows.length : Int) ≤ i then rows.get? (rows.length - (-i).toNat)
  else none

/-- The body of the `for` loop of `processResponseData` for one question:
`citationData = transcript.iloc[question.citations[0]]`, then the output
record copying `citationData["Start"]`/`["End"]` and the question fields. -/
def resolveQuestion (transcript : List WindowRec) (q : Question) :
    Except ResolveError ResolvedQuestion :=
  match q.citations with
  | [] => .error .missingCitation
  | c0 :: _ =>
    match iloc transcript c0 with
    | none => .error .citationOutOfRange
    | some citationData =>
      .ok ⟨citationData.Start, citationData.End, q.topic, q.question, q.answers,
        q.correctAnswerIndex, q.reason⟩

/-- `processResponseData(responseInfo, transcript)`: resolve every question in
order; the first raised `IndexError` aborts the whole call.  The Python dict
keyed by `enumerate` index is modelled as the list of values in key order. -/
def processResponseData (questions : List Question) (transcript : List WindowRec) :
    Except ResolveError (List ResolvedQuestion) :=
  match questions with
  | [] => .ok []
  | q :: qs =>
    match resolveQuestion transcript q with
    | .error e => .error e
    | .ok r =>
      match processResponseData qs transcript with
      | .error e => .error e
      | .ok rs => .ok (r :: rs)

/-- C2: for a windowed corpus, a valid index `i` into it, and any question
whose citation list begins with `i`, `processResponseData` resolves the
question to exactly the cited window's `Start` and `End`, regardless of any
further citation IDs: only the first citation ID is used. -/
theorem C2_citation_round_trip (transcript : List WindowRec) (i : Nat)
    (h : i < transcript.length) (q : Question) (rest : List Int)
    (hc : q.citations = (i : Int) :: rest) :
    processResponseData [q] transcript
      = .ok [⟨(transcript.get ⟨i, h⟩).Start, (transcript.get ⟨i, h⟩).End, q.topic,
          q.question, q.answers, q.correctAnswerIndex, q.reason⟩] := by
  have h0 : (0 : Int) ≤ (i : Int) := by omega
  have htn : ((i : Int)).toNat = i := by omega
  have hiloc : iloc transcript (i : Int) = some (transcript.get ⟨i, h⟩) := by
    rw [iloc, if_pos h0, htn]
    exact List.get?_eq_get h
  simp [processResponseData, resolveQuestion, hc, hiloc]

/-- Witness for C2: a two-window corpus and a question citing `[0, 5]`
resolves to the first window's timestamps. -/
theorem C2_citation_round_trip_witness :
    processResponseData
        [⟨"q", ["a1", "a2", "a3", "a4"], 1, "because", "topic", "00:00:10", [0, 5]⟩]
        [⟨"w0", 3, 7⟩, ⟨"w1", 9, 12⟩]
      = .ok [⟨3, 7, "topic", "q", ["a1", "a2", "a3", "a4"], 1, "because"⟩] :=
  C2_citation_round_trip [⟨"w0", 3, 7⟩, ⟨"w1", 9, 12⟩] 0 (by decide)
    ⟨"q", ["a1", "a2", "a3", "a4"], 1, "because", "topic", "00:00:10", [0, 5]⟩
    [5] (by decide)

/-- C3: a question with an empty citation list fails with the missing-citation
error (`question.citations[0]` raises), and a question whose first citation ID
equals `len(windowedCorpus)` fails with the out-of-range error (`iloc`
raises). -/
theorem C3_citation_validation (transcript : List WindowRec)
    (q q' : Question) (rest : List Int)
    (hq : q.citations = []) (hq' : q'.citations = (transcript.length : Int) :: rest) :
    processResponseData [q] transcript = .error .missingCitation ∧
    processResponseData [q'] transcript = .error .citationOutOfRange := by
  constructor
  · simp [processResponseData, resolveQuestion, hq]
  · have hiloc : iloc transcript (transcript.length : Int) = none := by
      have htn : ((transcript.length : Int)).toNat = transcript.length := by omega
      rw [iloc, if_pos (by omega), htn]
      exact List.get?_eq_none.mpr (Nat.le_refl _)
    simp [processResponseData, resolveQuestion, hq', hiloc]

/-- Witness for C3: on a one-window corpus, citations `[]` and `[1]` produce
the two distinct errors. -/
theorem C3_citation_validation_witness :
    processResponseData [⟨"q", [], 0, "r", "t", "i", []⟩] [⟨"w0", 3, 7⟩]
      = .error .missingCitation ∧
    processResponseData [⟨"q", [], 0, "r", "t", "i", [1]⟩] [⟨"w0", 3, 7⟩]
      = .error .citationOutOfRange :=
  C3_citation_validation [⟨"w0", 3, 7⟩]
    ⟨"q", [], 0, "r", "t", "i", []⟩ ⟨"q", [], 0, "r", "t", "i", [1]⟩ []
    (by decide) (by decide)

/-- C10: on a non-empty corpus of `n` windows, a first citation ID that is a
negative integer in `[-n, -1]` does not fail: pandas `iloc` resolves it by
Python negative indexing to the window at offset `n - |k|`, and `-1` in
particular yields the last window's timestamps. -/
theorem C10_negative_citation (transcript : List WindowRec) (q : Question)
    (rest : List Int) (k : Int)
    (hn : 1 ≤ transcript.length)
    (hk1 : -(transcript.length : Int) ≤ k) (hk2 : k < 0)
    (hc : q.citations = k :: rest) :
    ∃ r : ResolvedQuestion,
      processResponseData [q] transcript = .ok [r] ∧
      r.Start = (transcript.getD (transcript.length - (-k).toNat) default).Start ∧
      r.End = (transcript.getD (transcript.length - (-k).toNat) default).End ∧
      (k = -1 → r.Start = (transcript.getLastD default).Start ∧
        r.End = (transcript.getLastD default).End) := by
  set j : Nat := transcript.length - (-k).toNat with hj
  have hjlt : j < transcript.length := by omega
  have hget : transcript.get? j = some (transcript.get ⟨j, hjlt⟩) := List.get?_eq_get hjlt
  have hgetD : transcript.getD j default = transcript.get ⟨j, hjlt⟩ := by
    rw [List.getD_eq_get?, hget, Option.getD_some]
  have hiloc : iloc transcript k = some (transcript.get ⟨j, hjlt⟩) := by
    rw [iloc, if_neg (by omega), if_pos hk1, ← hj, hget]
  refine ⟨⟨(transcript.get ⟨j, hjlt⟩).Start, (transcript.get ⟨j, hjlt⟩).End, q.topic,
      q.question, q.answers, q.correctAnswerIndex, q.reason⟩, ?_, ?_, ?_, ?_⟩
  · simp [processResponseData, resolveQuestion, hc, hiloc]
  · rw [hgetD]
  · rw [hgetD]
  · intro hk
    have hj1 : j = transcript.length - 1 := by omega
    have hlastD : transcript.getLastD default = transcript.getD j default := by
      rw [List.getLastD_eq_getLast?, List.getLast?_eq_get?, List.getD_eq_get?, hj1]
    rw [hlastD, hgetD]
    exact ⟨rfl, rfl⟩

/-- Witness for C10: on a two-window corpus, a question citing `[-1]` resolves
to the last window's timestamps. -/
theorem C10_negative_citation_witness :
    ∃ r : ResolvedQuestion,
      processResponseData [⟨"q", [], 0, "r", "t", "i", [-1]⟩]
          [⟨"w0", 3, 7⟩, ⟨"w1", 9, 12⟩] = .ok [r] ∧
      r.Start = (([⟨"w0", 3, 7⟩, ⟨"w1", 9, 12⟩] : List WindowRec).getD
        (([⟨"w0", 3, 7⟩, ⟨"w1", 9, 12⟩] : List WindowRec).length - (-(-1 : Int)).toNat)
          default).Start ∧
      r.End = (([⟨"w0", 3, 7⟩, ⟨"w1", 9, 12⟩] : List WindowRec).getD
        (([⟨"w0", 3, 7⟩, ⟨"w1", 9, 12⟩] : List WindowRec).length - (-(-1 : Int)).toNat)
          default).End ∧
      ((-1 : Int) = -1 → r.Start = (([⟨"w0", 3, 7⟩, ⟨"w1", 9, 12⟩] :
          List WindowRec).getLastD default).Start ∧
        r.End = (([⟨"w0", 3, 7⟩, ⟨"w1", 9, 12⟩] : List WindowRec).getLastD default).End) :=
  C10_negative_citation [⟨"w0", 3, 7⟩, ⟨"w1", 9, 12⟩]
    ⟨"q", [], 0, "r", "t", "i", [-1]⟩ [] (-1)
    (by decide) (by decide) (by decide) (by decide)

end Annoto

namespace Annoto

/-! ### The retry loop of `OpenAIBot.getResponse` (`configData.py`)

The remote call is modelled by an environment `env : Nat → AttemptOutcome`
giving the outcome of each successive call attempt.  The model records every
`time.sleep` performed, in seconds, in order: the success branch sleeps 1s,
the rate-limit and timeout handlers sleep 60s, and the generic `Exception`
handler performs no sleep.  `sys.exit` is modelled as a fatal result.  The
bot's token-usage accounting is a side effect on bot state not modelled
here. -/

/-- Outcome of one `client.chat.completions.create` call attempt. -/
inductive AttemptOutcome where
  | success (text : String) (tokens : Nat)
  | authError
  | rateLimitError
  | timeoutError
  | otherError
deriving DecidableEq, Repr

/-- Exit state of the `while not callComplete and callAttemptCount < callMaxLimit`
loop in `OpenAIBot.getResponse`. -/
inductive LoopExit where
  | completed (text : String) (count : Nat) (sleeps : List Nat)
  | exhausted (count : Nat) (sleeps : List Nat)
  | authExit (sleeps : List Nat)
deriving DecidableEq, Repr

/-- Final result of `getResponse`: the returned text, or one of the two
`sys.exit` sites. -/
inductive RunResult where
  | ok (text : String)
  | fatalAuth
  | fatalMaxAttempts
deriving DecidableEq, Repr

/-- Whether an attempt outcome lands in one of the three retrying `except`
branches. -/
def isTransient : AttemptOutcome → Bool
  | .rateLimitError => true
  | .timeoutError => true
  | .otherError => true
  | _ => false

/-- The retry loop: `count` is `callAttemptCount`, the guard is
`count < callMaxLimit`, and `gas` is structural fuel kept equal to
`callMaxLimit - count` by every caller, so it never runs out before the
guard fails. -/
def callLoop (env : Nat → AttemptOutcome) (callMaxLimit : Nat) :
    Nat → Nat → List Nat → LoopExit
  | 0, count, sleeps => .exhausted count sleeps
  | gas + 1, count, sleeps =>
    if count < callMaxLimit then
      match env count with
      | .success text _ => .completed text (count + 1) (sleeps ++ [1])
      | .authError => .authExit sleeps
      | .rateLimitError => callLoop env callMaxLimit gas (count + 1) (sleeps ++ [60])
      | .timeoutError => callLoop env callMaxLimit gas (count + 1) (sleeps ++ [60])
      | .otherError => callLoop env callMaxLimit gas (count + 1) sleeps
    else .exhausted count sleeps

/-- `OpenAIBot.getResponse` with `callMaxLimit = 3`: run the loop, then
`if callAttemptCount >= callMaxLimit: sys.exit(...)` (note this fires even when
the third attempt succeeded), `elif callComplete: return responseText`. -/
def getResponse (env : Nat → AttemptOutcome) : RunResult × List Nat :=
  match callLoop env 3 3 0 [] with
  | .authExit sleeps => (.fatalAuth, sleeps)
  | .exhausted _ sleeps => (.fatalMaxAttempts, sleeps)
  | .completed text count sleeps =>
    if 3 ≤ count then (.fatalMaxAttempts, sleeps) else (.ok text, sleeps)

/-- C5 (amended): in any loop state with attempts remaining, an authentication
error exits the run fatally at once (no retry, no sleep); a rate-limit or
timeout error sleeps the fixed 60-second cooldown and retries; a generic
transport failure retries immediately with no cooldown; and attempts are
bounded by 3 — if every attempt fails transiently the run terminates
fatally. -/
theorem C5_retry_amended (env : Nat → AttemptOutcome) (gas count : Nat)
    (sleeps : List Nat) (h : count < 3) :
    (env count = .authError → callLoop env 3 (gas + 1) count sleeps = .authExit sleeps) ∧
    (env count = .rateLimitError →
      callLoop env 3 (gas + 1) count sleeps = callLoop env 3 gas (count + 1) (sleeps ++ [60])) ∧
    (env count = .timeoutError →
      callLoop env 3 (gas + 1) count sleeps = callLoop env 3 gas (count + 1) (sleeps ++ [60])) ∧
    (env count = .otherError →
      callLoop env 3 (gas + 1) count sleeps = callLoop env 3 gas (count + 1) sleeps) ∧
    (env 0 = .authError → getResponse env = (.fatalAuth, [])) ∧
    ((∀ k, k < 3 → isTransient (env k) = true) →
      ∃ s, getResponse env = (.fatalMaxAttempts, s)) := by
  refine ⟨?_, ?_, ?_, ?_, ?_, ?_⟩
  · intro he
    rw [callLoop, if_pos h, he]
  · intro he
    rw [callLoop, if_pos h, he]
  · intro he
    rw [callLoop, if_pos h, he]
  · intro he
    rw [callLoop, if_pos h, he]
  · intro he
    have h1 : callLoop env 3 3 0 [] = .authExit [] := by
      rw [callLoop, if_pos (by omega), he]
    simp [getResponse, h1]
  · intro htr
    have step : ∀ (gas' count' : Nat) (sleeps' : List Nat), count' < 3 →
        isTransient (env count') = true →
        ∃ s', callLoop env 3 (gas' + 1) count' sleeps'
          = callLoop env 3 gas' (count' + 1) s' := by
      intro gas' count' sleeps' hc ht
      cases ho : env count' with
      | success text tok => rw [ho] at ht; cases ht
      | authError => rw [ho] at ht; cases ht
      | rateLimitError => exact ⟨sleeps' ++ [60], by rw [callLoop, if_pos hc, ho]⟩
      | timeoutError => exact ⟨sleeps' ++ [60], by rw [callLoop, if_pos hc, ho]⟩
      | otherError => exact ⟨sleeps', by rw [callLoop, if_pos hc, ho]⟩
    obtain ⟨s1, h1⟩ := step 2 0 [] (by omega) (htr 0 (by omega))
    obtain ⟨s2, h2⟩ := step 1 1 s1 (by omega) (htr 1 (by omega))
    obtain ⟨s3, h3⟩ := step 0 2 s2 (by omega) (htr 2 (by omega))
    have hchain : callLoop env 3 3 0 [] = .exhausted 3 s3 := by
      have e1 : callLoop env 3 3 0 [] = callLoop env 3 2 1 s1 := h1
      have e2 : callLoop env 3 2 1 s1 = callLoop env 3 1 2 s2 := h2
      have e3 : callLoop env 3 1 2 s2 = callLoop env 3 0 3 s3 := h3
      rw [e1, e2, e3, callLoop]
    exact ⟨s3, by simp [getResponse, hchain]⟩

/-- Environment showing claim C5 false as stated: the first attempt fails with
a generic transport error, the second succeeds. -/
def c5Env : Nat → AttemptOutcome :=
  fun k => if k = 0 then .otherError else .success "ok" 7

/-- C5 (counterexample): a generic transport failure is retried with no
cooldown wait at all — the only sleep in the whole run is the 1-second
post-success sleep, not a fixed cooldown before the retry — refuting the claim
that every transient error (including a generic transport failure) triggers a
fixed-cooldown wait before its retry. -/
theorem C5_counterexample :
    c5Env 0 = .otherError ∧
    getResponse c5Env = (.ok "ok", [1]) ∧
    (60 : Nat) ∉ (getResponse c5Env).2 :=
  ⟨by decide, by decide, by decide⟩

/-- All-rate-limited environment for the C5 witness. -/
def c5EnvRL : Nat → AttemptOutcome := fun _ => .rateLimitError

/-- Witness for C5 (amended): a rate-limited attempt sleeps 60s and retries,
and three transient failures exhaust the bound fatally. -/
theorem C5_retry_amended_witness :
    callLoop c5EnvRL 3 (0 + 1) 0 [] = callLoop c5EnvRL 3 0 (0 + 1) ([] ++ [60]) ∧
    ∃ s, getResponse c5EnvRL = (.fatalMaxAttempts, s) :=
  ⟨(C5_retry_amended c5EnvRL 0 0 [] (by decide)).2.1 rfl,
   (C5_retry_amended c5EnvRL 0 0 [] (by decide)).2.2.2.2.2 (fun _ _ => rfl)⟩

end Annoto

namespace Annoto

/-! ### C6: the overwrite-flag cascade of `configVars.setFromEnv` -/

/-- The overwrite-flag cascade at the end of `configVars.setFromEnv`
(`configData.py`): after the three flags are read from the environment,
`if self.overwriteTranscriptData == True: self.overwriteTopicModel = True`,
then `if self.overwriteTopicModel == True: self.overwriteQuestionData = True`
— the second test reads the already-updated topic-model flag, so the update is
modelled by sequential shadowing. -/
def applyOverwriteCascade (overwriteTranscriptData overwriteTopicModel
    overwriteQuestionData : Bool) : Bool × Bool × Bool :=
  let overwriteTopicModel := if overwriteTranscriptData = true then true
    else overwriteTopicModel
  let overwriteQuestionData := if overwriteTopicModel = true then true
    else overwriteQuestionData
  (overwriteTranscriptData, overwriteTopicModel, overwriteQuestionData)

/-- C6: after configuration construction, if the transcript-overwrite flag is
true then so is the topic-model-overwrite flag, and if the topic-model flag is
true then so is the question-overwrite flag — whatever the environment set the
downstream flags to: upstream invalidation cascades forward. -/
theorem C6_cascading_invalidation (t m q : Bool) :
    ((applyOverwriteCascade t m q).1 = true → (applyOverwriteCascade t m q).2.1 = true) ∧
    ((applyOverwriteCascade t m q).2.1 = true → (applyOverwriteCascade t m q).2.2 = true) := by
  cases t <;> cases m <;> cases q <;> simp [applyOverwriteCascade]

/-- Witness for C6: transcript overwrite set, the downstream flags false in the
environment, yet both downstream flags end up true. -/
theorem C6_cascading_invalidation_witness :
    (applyOverwriteCascade true false false).2.1 = true ∧
    (applyOverwriteCascade true false false).2.2 = true :=
  ⟨(C6_cascading_invalidation true false false).1 rfl,
   (C6_cascading_invalidation true false false).2
     ((C6_cascading_invalidation true false false).1 rfl)⟩

/-! ### C7: cache-corruption recovery in `transcriptLoader.py` -/

/-- One element of a loaded cache payload: `None` or some opaque pickled
object (the actual srt-file list / DataFrame blobs are opaque to the shape
check). -/
inductive PyVal where
  | pynone
  | pydata (id : Nat)
deriving DecidableEq, Repr

/-- A loaded cache payload, as a dynamically-typed Python value: a tuple, a
list, or some other pickled object (`None` is the `Option.none` of the
loader's result). -/
inductive PyPayload where
  | pytuple (items : List PyVal)
  | pylist (items : List PyVal)
  | pyother (id : Nat)
deriving DecidableEq, Repr

/-- `TranscriptData.loadTranscriptData`: a `dataLoader` result of `None` yields
three `None` fields silently; a payload with `type(loadedData) != tuple or
len(loadedData) != 3` logs the corruption warning (second component `true`) and
is replaced by `[None] * 3`; a 3-tuple is unpacked into
`(srtFiles, transcript, combinedTranscript)`. -/
def loadTranscriptData (loaded : Option PyPayload) : (PyVal × PyVal × PyVal) × Bool :=
  match loaded with
  | none => ((.pynone, .pynone, .pynone), false)
  | some d =>
    match d with
    | .pytuple [a, b, c] => ((a, b, c), false)
    | _ => ((.pynone, .pynone, .pynone), true)

/-- Which path produced the returned transcript data. -/
inductive TranscriptSource where
  | fromCache
  | regenerated
deriving DecidableEq, Repr

/-- `retrieveTranscript(config, overwrite)`: when neither overwrite flag is
set, load the cached payload; if the loaded `combinedTranscript` is not `None`,
return the loaded data, else fall through to `makeTranscriptData(load=False)`.
That regeneration path reads the SRT files from disk, so its result is passed
in as `fresh`.  The last component reports whether the corruption warning was
logged. -/
def retrieveTranscript (overwriteTranscriptData overwrite : Bool)
    (cached : Option PyPayload) (fresh : PyVal × PyVal × PyVal) :
    TranscriptSource × (PyVal × PyVal × PyVal) × Bool :=
  if !overwriteTranscriptData && !overwrite then
    match loadTranscriptData cached with
    | ((s, t, c), warned) =>
      if c ≠ .pynone then (.fromCache, (s, t, c), warned)
      else (.regenerated, fresh, warned)
  else (.regenerated, fresh, false)

/-- Recogniser for a well-shaped cache payload: a tuple of exactly 3 items. -/
def isTuple3 : PyPayload → Bool
  | .pytuple [_, _, _] => true
  | _ => false

/-- C7: a cached transcript payload of the wrong shape or arity (anything but
a 3-tuple) does not terminate the run: the loader logs the warning, discards
the payload, and the transcript is regenerated exactly as when no cache exists
— the only difference from the no-cache run is the logged warning. -/
theorem C7_cache_corruption_recovers (p : PyPayload) (fresh : PyVal × PyVal × PyVal)
    (hbad : isTuple3 p = false) :
    retrieveTranscript false false (some p) fresh = (.regenerated, fresh, true) ∧
    retrieveTranscript false false none fresh = (.regenerated, fresh, false) := by
  constructor
  · have hload : loadTranscriptData (some p) = ((.pynone, .pynone, .pynone), true) := by
      cases p with
      | pytuple items =>
        match items with
        | [] => rfl
        | [_] => rfl
        | [_, _] => rfl
        | [_, _, _] => exact absurd hbad (by simp [isTuple3])
        | _ :: _ :: _ :: _ :: _ => rfl
      | pylist items => rfl
      | pyother n => rfl
    simp [retrieveTranscript, hload]
  · simp [retrieveTranscript, loadTranscriptData]

/-- Witness for C7: a cached payload that is a list (not a tuple) of three
items is discarded with a warning and the fresh data is used, just as when no
cache exists. -/
theorem C7_cache_corruption_recovers_witness :
    retrieveTranscript false false (some (.pylist [.pydata 1, .pydata 2, .pydata 3]))
        (.pydata 7, .pydata 8, .pydata 9)
      = (.regenerated, (.pydata 7, .pydata 8, .pydata 9), true) ∧
    retrieveTranscript false false none (.pydata 7, .pydata 8, .pydata 9)
      = (.regenerated, (.pydata 7, .pydata 8, .pydata 9), false) :=
  C7_cache_corruption_recovers (.pylist [.pydata 1, .pydata 2, .pydata 3])
    (.pydata 7, .pydata 8, .pydata 9) (by decide)

end Annoto

namespace Annoto

/-! ### The caption parser `processSrtFiles` (`transcriptLoader.py`)

Python strings are modelled as their character lists, and the `str` methods
used by the parser (`strip`, `isdigit`, `split`) are modelled char-by-char so
that every definition evaluates inside the kernel. -/

/-- Python `str.strip()`: drop whitespace from both ends. -/
def stripChars (s : List Char) : List Char :=
  (((s.dropWhile Char.isWhitespace).reverse).dropWhile Char.isWhitespace).reverse

/-- Python `str.isdigit()`: non-empty and all digits. -/
def isDigitLine (s : List Char) : Bool :=
  decide (s.length > 0) && s.all (fun c => c.isDigit)

/-- Python `str.split(sep)` for a single-character separator. -/
def splitOnChar (sep : Char) : List Char → List (List Char)
  | [] => [[]]
  | c :: rest =>
    if c = sep then [] :: splitOnChar sep rest
    else
      match splitOnChar sep rest with
      | [] => [[c]]
      | part :: parts => (c :: part) :: parts

/-- Python `str.split("-->")`: split on left-to-right non-overlapping
occurrences of the three-character arrow.  The line contains the arrow exactly
when the result has more than one part. -/
def splitOnArrow : List Char → List (List Char)
  | '-' :: '-' :: '>' :: rest => [] :: splitOnArrow rest
  | [] => [[]]
  | c :: rest =>
    match splitOnArrow rest with
    | [] => [[c]]
    | part :: parts => (c :: part) :: parts

/-- Numeric value of an all-digit character list. -/
def digitsVal (s : List Char) : Nat :=
  s.foldl (fun acc c => acc * 10 + (c.toNat - 48)) 0

/-- One `%H`/`%M`/`%S` field of `strptime`: one or two digits, value at most
`hi`. -/
def parseField (s : List Char) (hi : Nat) : Option Nat :=
  if 1 ≤ s.length && s.length ≤ 2 && s.all (fun c => c.isDigit) then
    if digitsVal s ≤ hi then some (digitsVal s) else none
  else none

/-- The `%f` field of `strptime`: one to six digits, zero-padded on the right
to microseconds. -/
def parseMicro (s : List Char) : Option Nat :=
  if 1 ≤ s.length && s.length ≤ 6 && s.all (fun c => c.isDigit) then
    some (digitsVal s * 10 ^ (6 - s.length))
  else none

/-- `datetime.strptime(s, "%H:%M:%S,%f")` as microseconds since midnight (the
constant date part of the resulting `datetime` cancels in every comparison the
pipeline makes).  `none` is the `ValueError` for a malformed timestamp. -/
def parseTimestamp (s : List Char) : Option Nat :=
  match splitOnChar ':' s with
  | [hs, ms, rest] =>
    match splitOnChar ',' rest with
    | [ss, fs] =>
      match parseField hs 23, parseField ms 59, parseField ss 61, parseMicro fs with
      | some h, some m, some sec, some f =>
        some (((h * 60 + m) * 60 + sec) * usPerSec + f)
      | _, _, _, _ => none
    | _ => none
  | _ => none

/-- One parsed subtitle record appended by `processSrtFiles`.  At the moment a
record is appended the times may still hold the loop's initial empty strings,
modelled as `none`. -/
structure SrtRec where
  Line : List Char
  Start : Option Nat
  End : Option Nat
deriving DecidableEq, Repr

/-- The loop state of `processSrtFiles`: the records appended so far, the
pending `sentence` accumulator, and the current `startTime`/`endTime`. -/
structure SrtState where
  records : List SrtRec
  sentence : List Char
  startTime : Option Nat
  endTime : Option Nat
deriving DecidableEq, Repr

/-- The fatal exits of `processSrtFiles`: an unhandled `ValueError` from
`strptime`, an unhandled `ValueError` from unpacking `line.split("-->")` into
two names, and the `sys.exit` for an empty parsed transcript. -/
inductive SrtError where
  | timeParseError
  | splitUnpackError
  | noTranscriptData
deriving DecidableEq, Repr

/-- The body of `for line in lines` in `processSrtFiles`: strip the line; skip
pure cue-number lines (`line.isdigit()`); on a line containing `-->`, split
and parse the two timestamps; append any other non-empty line to the pending
sentence; on a blank line append the pending record and reset the sentence. -/
def srtStep (st : SrtState) (rawLine : List Char) : Except SrtError SrtState :=
  let line := stripChars rawLine
  if isDigitLine line then .ok st
  else
    let parts := splitOnArrow line
    if parts.length > 1 then
      match parts with
      | [startStr, endStr] =>
        match parseTimestamp (stripChars startStr), parseTimestamp (stripChars endStr) with
        | some s, some e => .ok { st with startTime := some s, endTime := some e }
        | _, _ => .error .timeParseError
      | _ => .error .splitUnpackError
    else if line.length > 0 then .ok { st with sentence := st.sentence ++ ' ' :: line }
    else .ok { st with
      records := st.records ++ [⟨stripChars st.sentence, st.startTime, st.endTime⟩],
      sentence := [] }

/-- The whole `for line in lines` loop. -/
def srtFold : List (List Char) → SrtState → Except SrtError SrtState
  | [], st => .ok st
  | l :: ls, st =>
    match srtStep st l with
    | .error e => .error e
    | .ok st' => srtFold ls st'

/-- `processSrtFiles` applied to the chosen file's lines: run the loop from the
empty state and fail if no record was produced. -/
def processSrtFiles (lines : List (List Char)) : Except SrtError (List SrtRec) :=
  match srtFold lines ⟨[], [], none, none⟩ with
  | .error e => .error e
  | .ok st =>
    if st.records.length = 0 then .error .noTranscriptData
    else .ok st.records

end Annoto

namespace Annoto

/-- A non-blank line never appends a record: every branch of `srtStep` other
than the blank-line branch leaves `records` unchanged. -/
theorem srtStep_records_of_nonblank (l : List Char) (hl : stripChars l ≠ []) :
    ∀ st st₂, srtStep st l = .ok st₂ → st₂.records = st.records := by
  intro st st₂ h
  simp only [srtStep] at h
  split at h
  · injection h with h
    rw [← h]
  · split at h
    · split at h
      · split at h
        · injection h with h
          rw [← h]
        · simp at h
      · simp at h
    · split at h
      · injection h with h
        rw [← h]
      · exfalso
        rename_i hnotpos
        have h0 : (stripChars l).length = 0 := by omega
        exact hl (List.length_eq_zero.mp h0)

/-- C9: a cue record is appended only when a blank separator line is
encountered after its text lines: folding any run of lines none of which is
blank (after stripping) leaves the records list unchanged.  In particular,
when the file ends at the final cue's last text line with no trailing blank
separator, that final cue is omitted from the returned transcript. -/
theorem C9_record_only_on_blank (suffix : List (List Char)) :
    ∀ st st₂, (∀ l ∈ suffix, stripChars l ≠ []) →
      srtFold suffix st = .ok st₂ → st₂.records = st.records := by
  induction suffix with
  | nil =>
    intro st st₂ _ h
    simp only [srtFold] at h
    injection h with h
    rw [h]
  | cons l ls ih =>
    intro st st₂ hbl h
    simp only [srtFold] at h
    cases hs : srtStep st l with
    | error e =>
      rw [hs] at h
      simp at h
    | ok st1 =>
      rw [hs] at h
      have h1 := srtStep_records_of_nonblank l (hbl l (by simp)) st st1 hs
      have h2 := ih st1 st₂ (fun x hx => hbl x (by simp [hx])) h
      rw [h2, h1]

/-- Lines of a complete first cue (with its blank separator). -/
def c9PrefixLines : List (List Char) :=
  ["1".toList, "00:00:00,000 --> 00:00:05,000".toList, "hello world".toList, "".toList]

/-- Lines of a final cue not followed by a blank separator line. -/
def c9TailLines : List (List Char) :=
  ["2".toList, "00:00:05,000 --> 00:00:09,000".toList, "dropped line".toList]

/-- The parser state after `c9PrefixLines`. -/
def c9MidState : SrtState :=
  ⟨[⟨"hello world".toList, some 0, some (5 * usPerSec)⟩], [], some 0, some (5 * usPerSec)⟩

/-- The parser state after `c9TailLines`: the final cue's text is still pending
in `sentence`, never appended. -/
def c9EndState : SrtState :=
  ⟨[⟨"hello world".toList, some 0, some (5 * usPerSec)⟩], " dropped line".toList,
    some (5 * usPerSec), some (9 * usPerSec)⟩

/-- Witness for C9: on a file whose second (final) cue has no trailing blank
line, the fold over the final cue's lines leaves the records unchanged, and the
whole parse returns only the first cue. -/
theorem C9_record_only_on_blank_witness :
    srtFold c9TailLines c9MidState = .ok c9EndState ∧
    c9EndState.records = c9MidState.records ∧
    processSrtFiles (c9PrefixLines ++ c9TailLines)
      = .ok [⟨"hello world".toList, some 0, some (5 * usPerSec)⟩] :=
  ⟨by rfl,
   C9_record_only_on_blank c9TailLines c9MidState c9EndState (by decide) (by rfl),
   by rfl⟩

end Annoto
